import Mathlib

/-!
Verification of the quarto-cli YAML validation / editing-intelligence core
against its natural-language specification.  The TypeScript sources are
shallowly embedded: buffers are lists of characters, the pluggable
tree-sitter engine is a function from buffers to optional parse trees
(`none` models an engine fault, i.e. a thrown exception), JavaScript
records with optional fields become structures of `Option`s, and the
mutable schema registry becomes explicit state passing.
-/

namespace Quarto

/-! ## Parser adapter (src/core/lib/yaml-intelligence/parsing.ts) -/

/-- Parse tree handed back by the pluggable tree-sitter engine.  The adapter
only ever inspects `tree.rootNode.type`, so that is what the model records. -/
structure PTree where
  rootType : String
deriving DecidableEq, Repr

/-- One element of the error-recovery reparse sequence
(`ParseAttemptResult` in parsing.ts): the (mapped) code that was parsed,
the tree, and the number of deletions performed so far. -/
structure ParseAttemptResult where
  code : List Char
  parse : PTree
  deletions : Nat
deriving DecidableEq, Repr

/-- Modelled from the spec: `rangedLines(text, true)` (core/lib/ranged-text.ts,
not under src/) splits the buffer into lines, each line keeping its
terminating newline, with a final (possibly empty) line after the last
newline; the ranges cover the flattened value contiguously and in order.
A lone carriage return is not a line break for the source either; here it is
simply an ordinary character of its line. -/
def rangedLines : List Char → List (List Char)
  | [] => [[]]
  | c :: rest =>
    if c = '\n' then [c] :: rangedLines rest
    else
      match rangedLines rest with
      | [] => [[c]]
      | l :: ls => (c :: l) :: ls

/-- Flat offset at which line `i` starts: the sum of the lengths of the
lines before it.  This is `rowColToIndex` at column 0 (core/lib/text.ts);
`rowColToIndex({row, column})` is `lineStart lns row + column`, and line
ranges satisfy `range.start = lineStart lns i`, `range.end = lineStart lns
(i+1)`. -/
def lineStart (lns : List (List Char)) (i : Nat) : Nat :=
  ((lns.take i).map List.length).sum

/-- Substring of the buffer between flat offsets `a` (inclusive) and `b`
(exclusive), as `mappedString` concatenates chunk ranges. -/
def sliceL (code : List Char) (a b : Nat) : List Char :=
  (code.drop a).take (b - a)

/-- Reduced buffer built for recovery attempt number `d` of
`attemptParsesAtLine`: the concatenation of the chunks passed to
`mappedString` (parsing.ts lines 93-118) — everything before the cursor's
row, the cursor's row up to column `col - d`, then the row's trailing
newline and all following rows. -/
def reducedCode (code : List Char) (row col d : Nat) : List Char :=
  let lns := rangedLines code
  let n := lns.length
  let currentLineLen := (lns.getD row []).length
  (if 0 < row then sliceL code 0 (lineStart lns row) else []) ++
  (if d < col then sliceL code (lineStart lns row) (lineStart lns row + (col - d)) else []) ++
  (if row + 1 < n then
    sliceL code (lineStart lns row + (currentLineLen - 1)) (lineStart lns (row + 1)) ++
    sliceL code (lineStart lns (row + 1)) (lineStart lns n)
  else [])

/-- While-loop of `attemptParsesAtLine` (parsing.ts lines 89-128): `d` is the
number of deletions performed so far, `r` the remaining column budget.  Each
iteration deletes one more character before the cursor, reparses, and yields
the attempt when the root node is not an ERROR node.  The reparse call is not
wrapped in a try/catch, so an engine fault (`none`) escapes the generator:
no further elements are produced. -/
def attemptLoop (parser : List Char → Option PTree) (code : List Char)
    (row col : Nat) : Nat → Nat → List ParseAttemptResult
  | _, 0 => []
  | d, r + 1 =>
    let newCode := reducedCode code row col (d + 1)
    match parser newCode with
    | none => []
    | some t =>
      (if t.rootType = "ERROR" then [] else [⟨newCode, t, d + 1⟩]) ++
        attemptLoop parser code row col (d + 1) r

/-- `attemptParsesAtLine` (parsing.ts lines 53-129), with the lazy generator
fully consumed into the list of elements it yields.  The full buffer is
parsed first inside try/catch (a fault aborts the whole sequence) and yielded
when clean; only then is the cursor row checked against the buffer's line
range; if in range, the deletion loop runs down the cursor's column budget. -/
def attemptParsesAtLine (parser : List Char → Option PTree) (code : List Char)
    (row : Int) (col : Nat) : List ParseAttemptResult :=
  match parser code with
  | none => []
  | some t =>
    let first := if t.rootType = "ERROR" then [] else [⟨code, t, 0⟩]
    if ((rangedLines code).length : Int) ≤ row ∨ row < 0 then first
    else first ++ attemptLoop parser code row.toNat col 0 col

/-- A parser that accepts every buffer with a clean (non-ERROR) root node,
used to evaluate the adapter on concrete inputs. -/
def acceptAllParser : List Char → Option PTree :=
  fun _ => some ⟨"stream"⟩

theorem attemptLoop_mem (parser : List Char → Option PTree) (code : List Char)
    (row col : Nat) :
    ∀ d r e, e ∈ attemptLoop parser code row col d r →
      e.parse.rootType ≠ "ERROR" ∧ d < e.deletions ∧ e.deletions ≤ d + r := by
  intro d r
  induction r generalizing d with
  | zero => intro e h; simp [attemptLoop] at h
  | succ r ih =>
    intro e h
    rw [attemptLoop] at h
    rcases hp : parser (reducedCode code row col (d + 1)) with _ | t
    · rw [hp] at h; simp at h
    · rw [hp] at h
      simp only [List.mem_append] at h
      rcases h with h | h
      · by_cases ht : t.rootType = "ERROR"
        · simp [ht] at h
        · simp [ht] at h
          subst h
          refine ⟨ht, by dsimp only; omega, by dsimp only; omega⟩
      · obtain ⟨h1, h2, h3⟩ := ih (d + 1) e h
        exact ⟨h1, by omega, by omega⟩

theorem attemptLoop_length (parser : List Char → Option PTree) (code : List Char)
    (row col : Nat) :
    ∀ d r, (attemptLoop parser code row col d r).length ≤ r := by
  intro d r
  induction r generalizing d with
  | zero => simp [attemptLoop]
  | succ r ih =>
    rw [attemptLoop]
    rcases parser (reducedCode code row col (d + 1)) with _ | t
    · simp
    · simp only [List.length_append]
      have := ih (d + 1)
      by_cases ht : t.rootType = "ERROR" <;> simp [ht] <;> omega

theorem attemptLoop_pairwise (parser : List Char → Option PTree) (code : List Char)
    (row col : Nat) :
    ∀ d r, ((attemptLoop parser code row col d r).map
      (fun e => e.deletions)).Pairwise (· < ·) := by
  intro d r
  induction r generalizing d with
  | zero => simp [attemptLoop]
  | succ r ih =>
    rw [attemptLoop]
    rcases hp : parser (reducedCode code row col (d + 1)) with _ | t
    · simp
    · by_cases ht : t.rootType = "ERROR"
      · simpa [ht] using ih (d + 1)
      · simp only [ht, if_neg, ite_false, List.singleton_append, List.map_cons,
          List.pairwise_cons]
        refine ⟨?_, ih (d + 1)⟩
        intro b hb
        simp only [List.mem_map] at hb
        obtain ⟨e, he, rfl⟩ := hb
        have := (attemptLoop_mem parser code row col (d + 1) r e he).2.1
        omega

/-- Claim C2, counterexample.  With a parser that parses every buffer cleanly,
buffer "ab" and cursor (0,2), the full-buffer parse is clean, yet the
sequence has three elements (deletions 0, 1 and 2), not one: the generator
does not stop at a clean parse, it keeps attempting deletions until the
column budget is exhausted. -/
theorem c2_sole_attempt_counterexample :
    acceptAllParser ("ab".toList) = some ⟨"stream"⟩ ∧
    ("stream" : String) ≠ "ERROR" ∧
    (attemptParsesAtLine acceptAllParser ("ab".toList) 0 2).length = 3 := by
  refine ⟨rfl, by decide, by decide⟩

/-- Claim C2, amended: if parsing the full buffer yields a syntactically
clean result, that parse is the FIRST element of the recovery sequence, with
zero deletions; the sequence does not end there — it continues with
character-deletion reparse attempts (yielding each clean one) until the
cursor's column budget is exhausted, or until an engine fault aborts it. -/
theorem c2_clean_full_parse_is_first_attempt
    (parser : List Char → Option PTree) (code : List Char) (row : Int)
    (col : Nat) (t : PTree) (hp : parser code = some t)
    (hclean : t.rootType ≠ "ERROR") :
    ∃ rest, attemptParsesAtLine parser code row col =
      ⟨code, t, 0⟩ :: rest := by
  unfold attemptParsesAtLine
  rw [hp]
  simp only [hclean, ite_false, if_neg]
  by_cases hb : ((rangedLines code).length : Int) ≤ row ∨ row < 0
  · exact ⟨[], by simp [hb]⟩
  · exact ⟨attemptLoop parser code row.toNat col 0 col, by simp [hb]⟩

theorem c2_clean_full_parse_is_first_attempt_witness :
    acceptAllParser ("ab".toList) = some ⟨"stream"⟩ ∧
    (⟨"stream"⟩ : PTree).rootType ≠ "ERROR" ∧
    ∃ rest, attemptParsesAtLine acceptAllParser ("ab".toList) 0 2 =
      ⟨"ab".toList, ⟨"stream"⟩, 0⟩ :: rest :=
  ⟨rfl, by decide,
    c2_clean_full_parse_is_first_attempt acceptAllParser ("ab".toList) 0 2
      ⟨"stream"⟩ rfl (by decide)⟩

/-- Claim C3, counterexample.  The full-buffer parse is attempted and, when
clean, yielded BEFORE the cursor row is checked against the buffer's line
range: with an accept-all parser, buffer "x" and cursor row 5 (out of range),
the sequence holds one element, not zero. -/
theorem c3_empty_sequence_counterexample :
    (5 : Int) ≥ ((rangedLines ("x".toList)).length : Int) ∧
    attemptParsesAtLine acceptAllParser ("x".toList) 5 0 =
      [⟨"x".toList, ⟨"stream"⟩, 0⟩] := by
  refine ⟨by decide, by decide⟩

/-- Claim C3, amended: for a cursor row that is negative or at least the
number of buffer lines, no recovery attempt is ever made — the sequence is
empty when the full-buffer parse is not clean, and consists of exactly the
clean full-buffer parse (zero deletions) otherwise; in particular it has at
most one element. -/
theorem c3_out_of_range_no_recovery_attempts
    (parser : List Char → Option PTree) (code : List Char) (row : Int)
    (col : Nat)
    (hout : ((rangedLines code).length : Int) ≤ row ∨ row < 0) :
    (attemptParsesAtLine parser code row col).length ≤ 1 ∧
    ∀ e ∈ attemptParsesAtLine parser code row col,
      e.deletions = 0 ∧ e.code = code ∧ parser code = some e.parse := by
  unfold attemptParsesAtLine
  rcases hp : parser code with _ | t
  · simp
  · simp only [hout, ite_true, if_pos]
    by_cases ht : t.rootType = "ERROR"
    · simp [ht]
    · simp only [ht, ite_false, if_neg]
      refine ⟨by simp, ?_⟩
      intro e he
      simp only [List.mem_singleton] at he
      subst he
      exact ⟨rfl, rfl, rfl⟩

theorem c3_out_of_range_no_recovery_attempts_witness :
    (((rangedLines ("x".toList)).length : Int) ≤ 5 ∨ (5 : Int) < 0) ∧
    ((attemptParsesAtLine acceptAllParser ("x".toList) 5 0).length ≤ 1 ∧
      ∀ e ∈ attemptParsesAtLine acceptAllParser ("x".toList) 5 0,
        e.deletions = 0 ∧ e.code = "x".toList ∧
          acceptAllParser ("x".toList) = some e.parse) :=
  ⟨by decide,
    c3_out_of_range_no_recovery_attempts acceptAllParser ("x".toList) 5 0
      (by decide)⟩

/-- Claim C4, confirmed: the recovery sequence is finite — the embedding of
the generator is a total function, its loop structurally descending along
the cursor's column budget — with at most `1 + column` elements, and the
`deletions` values of successive elements are strictly increasing. -/
theorem c4_recovery_sequence_bounded_and_monotonic
    (parser : List Char → Option PTree) (code : List Char) (row : Int)
    (col : Nat) :
    (attemptParsesAtLine parser code row col).length ≤ 1 + col ∧
    ((attemptParsesAtLine parser code row col).map
      (fun e => e.deletions)).Pairwise (· < ·) := by
  unfold attemptParsesAtLine
  rcases parser code with _ | t
  · simp
  · have hlen := attemptLoop_length parser code row.toNat col 0 col
    have hpw := attemptLoop_pairwise parser code row.toNat col 0 col
    by_cases ht : t.rootType = "ERROR" <;>
      by_cases hb : ((rangedLines code).length : Int) ≤ row ∨ row < 0
    · simp [ht, hb]
    · simp only [ht, ite_true, hb, ite_false, if_neg, List.nil_append,
        not_false_iff]
      exact ⟨by omega, hpw⟩
    · simp [ht, hb]
    · simp only [ht, ite_false, hb, if_neg, List.singleton_append,
        List.length_cons, List.map_cons, List.pairwise_cons, not_false_iff]
      refine ⟨by omega, ?_, hpw⟩
      intro b hbmem
      simp only [List.mem_map] at hbmem
      obtain ⟨e, he, rfl⟩ := hbmem
      have := (attemptLoop_mem parser code row.toNat col 0 col e he).2.1
      omega

/-- Claim C9, confirmed: every yielded element carries a clean parse (root
node type is not "ERROR"), its deletion count never exceeds the cursor's
column, and a zero deletion count happens only for the full-buffer parse. -/
theorem c9_yielded_attempts_clean_and_bounded
    (parser : List Char → Option PTree) (code : List Char) (row : Int)
    (col : Nat) (e : ParseAttemptResult)
    (he : e ∈ attemptParsesAtLine parser code row col) :
    e.parse.rootType ≠ "ERROR" ∧ e.deletions ≤ col ∧
    (e.deletions = 0 → e.code = code ∧ parser code = some e.parse) := by
  unfold attemptParsesAtLine at he
  rcases hp : parser code with _ | t <;> rw [hp] at he
  · simp at he
  · have hmem : (e = (⟨code, t, 0⟩ : ParseAttemptResult) ∧ t.rootType ≠ "ERROR") ∨
        e ∈ attemptLoop parser code row.toNat col 0 col := by
      by_cases ht : t.rootType = "ERROR" <;>
        by_cases hb : ((rangedLines code).length : Int) ≤ row ∨ row < 0 <;>
        simp [ht, hb] at he <;> tauto
    rcases hmem with ⟨rfl, hclean⟩ | hloop
    · exact ⟨hclean, by simp, fun _ => ⟨rfl, rfl⟩⟩
    · obtain ⟨h1, h2, h3⟩ := attemptLoop_mem parser code row.toNat col 0 col e hloop
      exact ⟨h1, by omega, fun h0 => by omega⟩

theorem c9_yielded_attempts_clean_and_bounded_witness :
    (⟨"a".toList, ⟨"stream"⟩, 1⟩ : ParseAttemptResult) ∈
      attemptParsesAtLine acceptAllParser ("ab".toList) 0 2 ∧
    ((⟨"a".toList, ⟨"stream"⟩, 1⟩ : ParseAttemptResult).parse.rootType ≠ "ERROR" ∧
      (⟨"a".toList, ⟨"stream"⟩, 1⟩ : ParseAttemptResult).deletions ≤ 2 ∧
      ((⟨"a".toList, ⟨"stream"⟩, 1⟩ : ParseAttemptResult).deletions = 0 →
        (⟨"a".toList, ⟨"stream"⟩, 1⟩ : ParseAttemptResult).code = "ab".toList ∧
          acceptAllParser ("ab".toList) =
            some (⟨"a".toList, ⟨"stream"⟩, 1⟩ : ParseAttemptResult).parse)) :=
  ⟨by decide,
    c9_yielded_attempts_clean_and_bounded acceptAllParser ("ab".toList) 0 2
      ⟨"a".toList, ⟨"stream"⟩, 1⟩ (by decide)⟩

/-! ## Schema model (yaml-validation/schema.ts) -/

/-- Native YAML/JSON scalar values, as they appear in enum lists and as the
`result` of an annotated parse node. -/
inductive JSValue where
  | nullv
  | boolv (b : Bool)
  | numv (n : Int)
  | strv (s : String)
deriving DecidableEq, Repr

/-- The duck-typed schema value (`Schema = any` in schema.ts): a record whose
fields are all optional.  Field order: type, anyOf, oneOf, allOf, enum,
items, properties, patternProperties, additionalProperties, completions,
exhaustiveCompletions, documentation, tags, id, ref, errorMessage,
description. -/
inductive Schema where
  | mk
    (type : Option String)
    (anyOf : Option (List Schema))
    (oneOf : Option (List Schema))
    (allOf : Option (List Schema))
    (enum : Option (List JSValue))
    (items : Option Schema)
    (properties : Option (List (String × Schema)))
    (patternProperties : Option (List (String × Schema)))
    (additionalProperties : Option Schema)
    (completions : Option (List String))
    (exhaustiveCompletions : Option Bool)
    (documentation : Option String)
    (tags : Option (List String))
    (id : Option String)
    (ref : Option String)
    (errorMessage : Option String)
    (description : Option String)

def Schema.type : Schema → Option String
  | .mk t .. => t

def Schema.anyOf : Schema → Option (List Schema)
  | .mk _ a .. => a

def Schema.oneOf : Schema → Option (List Schema)
  | .mk _ _ o .. => o

def Schema.allOf : Schema → Option (List Schema)
  | .mk _ _ _ al .. => al

def Schema.enum : Schema → Option (List JSValue)
  | .mk _ _ _ _ en .. => en

def Schema.items : Schema → Option Schema
  | .mk _ _ _ _ _ it .. => it

def Schema.properties : Schema → Option (List (String × Schema))
  | .mk _ _ _ _ _ _ pr .. => pr

def Schema.patternProperties : Schema → Option (List (String × Schema))
  | .mk _ _ _ _ _ _ _ pp .. => pp

def Schema.additionalProperties : Schema → Option Schema
  | .mk _ _ _ _ _ _ _ _ ap .. => ap

def Schema.completions : Schema → Option (List String)
  | .mk _ _ _ _ _ _ _ _ _ comp .. => comp

def Schema.exhaustiveCompletions : Schema → Option Bool
  | .mk _ _ _ _ _ _ _ _ _ _ exC .. => exC

def Schema.documentation : Schema → Option String
  | .mk _ _ _ _ _ _ _ _ _ _ _ doc .. => doc

def Schema.tags : Schema → Option (List String)
  | .mk _ _ _ _ _ _ _ _ _ _ _ _ tg .. => tg

def Schema.id : Schema → Option String
  | .mk _ _ _ _ _ _ _ _ _ _ _ _ _ i .. => i

def Schema.ref : Schema → Option String
  | .mk _ _ _ _ _ _ _ _ _ _ _ _ _ _ r .. => r

def Schema.errorMessage : Schema → Option String
  | .mk _ _ _ _ _ _ _ _ _ _ _ _ _ _ _ em .. => em

def Schema.description : Schema → Option String
  | .mk _ _ _ _ _ _ _ _ _ _ _ _ _ _ _ _ de => de

/-- The schema with every field absent. -/
def emptySchema : Schema :=
  .mk none none none none none none none none none none none none none none
    none none none

/-- Truthiness of a JavaScript string-or-undefined value: undefined and the
empty string are falsy, every other string truthy. -/
def jsTruthyStr : Option String → Bool
  | none => false
  | some s => !(s == "")

/-- `schemaType` (schema.ts lines 29-47): `if (t) return t;` then the
anyOf / oneOf / allOf / enum chain, defaulting to "any".  An array-valued
field is truthy in JavaScript even when empty, hence `isSome`. -/
def schemaType (schema : Schema) : String :=
  let t := schema.type
  if jsTruthyStr t then t.getD ""
  else if schema.anyOf.isSome then "anyOf"
  else if schema.oneOf.isSome then "oneOf"
  else if schema.allOf.isSome then "allOf"
  else if schema.enum.isSome then "enum"
  else "any"

def exTypeWithEnum : Schema :=
  .mk (some "string") none none none (some [.strv "a", .strv "b"]) none none
    none none none none none none none none none none

def exEnumOnly : Schema :=
  .mk none none none none (some [.numv 1, .numv 2]) none none none none none
    none none none none none none none

def exAnyOfOnly : Schema :=
  .mk none (some [emptySchema]) none none none none none none none none none
    none none none none none none

def exOneOfOnly : Schema :=
  .mk none none (some [emptySchema]) none none none none none none none none
    none none none none none none

def exAllOfOnly : Schema :=
  .mk none none none (some [emptySchema]) none none none none none none none
    none none none none none none

/-- Claim C5, confirmed: classification follows the fixed precedence
explicit type > anyOf > oneOf > allOf > enum > "any"; in particular a schema
with both a type and an enum classifies as the type, and a schema with enum
but no type classifies as "enum". -/
theorem c5_schemaType_precedence :
    schemaType exTypeWithEnum = "string" ∧
    schemaType exEnumOnly = "enum" ∧
    (∀ s : Schema, ∀ t : String, s.type = some t → t ≠ "" →
      schemaType s = t) ∧
    (∀ s : Schema, jsTruthyStr s.type = false → s.anyOf.isSome →
      schemaType s = "anyOf") ∧
    (∀ s : Schema, jsTruthyStr s.type = false → s.anyOf = none →
      s.oneOf.isSome → schemaType s = "oneOf") ∧
    (∀ s : Schema, jsTruthyStr s.type = false → s.anyOf = none →
      s.oneOf = none → s.allOf.isSome → schemaType s = "allOf") ∧
    (∀ s : Schema, jsTruthyStr s.type = false → s.anyOf = none →
      s.oneOf = none → s.allOf = none → s.enum.isSome →
      schemaType s = "enum") ∧
    (∀ s : Schema, jsTruthyStr s.type = false → s.anyOf = none →
      s.oneOf = none → s.allOf = none → s.enum = none →
      schemaType s = "any") := by
  refine ⟨rfl, rfl, ?_, ?_, ?_, ?_, ?_, ?_⟩
  · intro s t ht hne
    simp [schemaType, ht, jsTruthyStr, hne]
  · intro s ht ha
    simp [schemaType, ht, ha]
  · intro s ht ha ho
    simp [schemaType, ht, ha, ho]
  · intro s ht ha ho hal
    simp [schemaType, ht, ha, ho, hal]
  · intro s ht ha ho hal hen
    simp [schemaType, ht, ha, ho, hal, hen]
  · intro s ht ha ho hal hen
    simp [schemaType, ht, ha, ho, hal, hen]

theorem c5_schemaType_precedence_witness :
    schemaType exTypeWithEnum = "string" ∧
    schemaType exAnyOfOnly = "anyOf" ∧
    schemaType exOneOfOnly = "oneOf" ∧
    schemaType exAllOfOnly = "allOf" ∧
    schemaType exEnumOnly = "enum" ∧
    schemaType emptySchema = "any" :=
  ⟨c5_schemaType_precedence.2.2.1 exTypeWithEnum "string" rfl (by decide),
    c5_schemaType_precedence.2.2.2.1 exAnyOfOnly rfl rfl,
    c5_schemaType_precedence.2.2.2.2.1 exOneOfOnly rfl rfl rfl,
    c5_schemaType_precedence.2.2.2.2.2.1 exAllOfOnly rfl rfl rfl rfl,
    c5_schemaType_precedence.2.2.2.2.2.2.1 exEnumOnly rfl rfl rfl rfl rfl,
    c5_schemaType_precedence.2.2.2.2.2.2.2 emptySchema rfl rfl rfl rfl rfl⟩

/-! ## Schema registry (schema.ts lines 195-220, definitions.ts) -/

/-- The process-wide `definitionsObject`, modelled as explicit state. -/
def SchemaRegistry : Type := String → Option Schema

/-- JavaScript property access coerces an undefined key to the string
"undefined"; a schema without an $id is therefore stored under that key. -/
def jsKeyOf : Option String → String
  | none => "undefined"
  | some s => s

def hasSchemaDefinition (reg : SchemaRegistry) (key : String) : Bool :=
  (reg key).isSome

/-- `getSchemaDefinition` throws when the key is unregistered; the throw is
modelled by `none`. -/
def getSchemaDefinition (reg : SchemaRegistry) (key : String) : Option Schema :=
  reg key

/-- `setSchemaDefinition` (schema.ts lines 210-215): stores the schema under
its $id only when that key is not yet present. -/
def setSchemaDefinition (reg : SchemaRegistry) (schema : Schema) : SchemaRegistry :=
  let key := jsKeyOf schema.id
  if (reg key).isSome then reg
  else fun k => if k = key then some schema else reg k

/-- `define` (definitions.ts lines 64-70): registry effect only — the
`withValidator(normalizeSchema(schema), ...)` call touches the validator
cache, not the definitions object. -/
def define (reg : SchemaRegistry) (schema : Schema) : SchemaRegistry :=
  if hasSchemaDefinition reg (jsKeyOf schema.id) then reg
  else setSchemaDefinition reg schema

theorem define_eq_set (reg : SchemaRegistry) (s : Schema) :
    define reg s = setSchemaDefinition reg s := by
  unfold define hasSchemaDefinition setSchemaDefinition
  by_cases h : (reg (jsKeyOf s.id)).isSome <;> simp [h]

theorem setSchemaDefinition_lookup (reg : SchemaRegistry) (s : Schema) :
    ((setSchemaDefinition reg s) (jsKeyOf s.id)).isSome := by
  unfold setSchemaDefinition
  by_cases h : (reg (jsKeyOf s.id)).isSome <;> simp [h]

/-- Claim C6, confirmed: registration by $id is idempotent — a second
`defineSchema` call with any schema whose $id is already registered leaves
the registry unchanged, the first registration wins, and lookups return the
first-registered schema. -/
theorem c6_defineSchema_idempotent (reg : SchemaRegistry) (s : Schema) :
    ((reg (jsKeyOf s.id)).isSome → define reg s = reg) ∧
    define (define reg s) s = define reg s ∧
    (∀ s2 : Schema, jsKeyOf s2.id = jsKeyOf s.id →
      define (define reg s) s2 = define reg s) ∧
    (reg (jsKeyOf s.id) = none → ∀ s2 : Schema, jsKeyOf s2.id = jsKeyOf s.id →
      getSchemaDefinition (define (define reg s) s2) (jsKeyOf s.id) = some s) := by
  have hnoop : ∀ (r : SchemaRegistry) (s2 : Schema),
      (r (jsKeyOf s2.id)).isSome → define r s2 = r := by
    intro r s2 h
    unfold define hasSchemaDefinition
    simp [h]
  have hsecond : ∀ s2 : Schema, jsKeyOf s2.id = jsKeyOf s.id →
      define (define reg s) s2 = define reg s := by
    intro s2 hkey
    apply hnoop
    rw [hkey, define_eq_set]
    exact setSchemaDefinition_lookup reg s
  refine ⟨hnoop reg s, hsecond s rfl, hsecond, ?_⟩
  intro hnone s2 hkey
  rw [hsecond s2 hkey, define_eq_set]
  unfold getSchemaDefinition setSchemaDefinition
  simp [hnone]

theorem c6_defineSchema_idempotent_witness :
    define (define (fun _ => none) exTypeWithEnum) exTypeWithEnum =
      define (fun _ => none) exTypeWithEnum ∧
    getSchemaDefinition
      (define (define (fun _ => none) exTypeWithEnum) exTypeWithEnum)
      (jsKeyOf exTypeWithEnum.id) = some exTypeWithEnum :=
  ⟨(c6_defineSchema_idempotent (fun _ => none) exTypeWithEnum).2.1,
    (c6_defineSchema_idempotent (fun _ => none) exTypeWithEnum).2.2.2 rfl
      exTypeWithEnum rfl⟩

/-! ## normalizeSchema (schema.ts lines 114-193) -/

mutual

def normalizeSchema : Schema → Schema
  | .mk t a o al en it pr pp ap comp exC doc tg id rf em de =>
    let comp2 : Option (List String) := if comp.isSome then none else comp
    let exC2 : Option Bool := if exC = some true then none else exC
    let doc2 : Option String := if jsTruthyStr doc then none else doc
    let tg2 : Option (List String) := if tg.isSome then none else tg
    let ty := schemaType (.mk t a o al en it pr pp ap comp2 exC2 doc2 tg2 id rf em de)
    if ty = "array" then
      .mk t a o al en (normOpt it) pr pp ap comp2 exC2 doc2 tg2 id rf em de
    else if ty = "anyOf" then
      .mk t (normOptList a) o al en it pr pp ap comp2 exC2 doc2 tg2 id rf em de
    else if ty = "oneOf" then
      .mk t a (normOptList o) al en it pr pp ap comp2 exC2 doc2 tg2 id rf em de
    else if ty = "allOf" then
      .mk t a o (normOptList al) en it pr pp ap comp2 exC2 doc2 tg2 id rf em de
    else if ty = "object" then
      .mk t a o al en it (normOptProps pr) (normOptProps pp) (normOpt ap) comp2
        exC2 doc2 tg2 id rf em de
    else
      .mk t a o al en it pr pp ap comp2 exC2 doc2 tg2 id rf em de

def normOpt : Option Schema → Option Schema
  | none => none
  | some x => some (normalizeSchema x)

def normOptList : Option (List Schema) → Option (List Schema)
  | none => none
  | some l => some (normList l)

def normList : List Schema → List Schema
  | [] => []
  | x :: xs => normalizeSchema x :: normList xs

def normOptProps : Option (List (String × Schema)) → Option (List (String × Schema))
  | none => none
  | some l => some (normProps l)

def normProps : List (String × Schema) → List (String × Schema)
  | [] => []
  | kv :: xs => (kv.1, normalizeSchema kv.2) :: normProps xs

end

/-- Per-node field check of claim C7's amended reading: at a node the walk
visits, completions and tags are gone whenever they were present,
exhaustiveCompletions is not true (false survives the truthiness test), and
documentation is absent or the (falsy) empty string. -/
def nodeStripped (s : Schema) : Bool :=
  s.completions.isNone && s.tags.isNone &&
  !(s.exhaustiveCompletions == some true) &&
  (s.documentation == none || s.documentation == some "")

mutual

def walkStripped : Schema → Bool
  | .mk t a o al en it pr pp ap comp exC doc tg id rf em de =>
    nodeStripped (.mk t a o al en it pr pp ap comp exC doc tg id rf em de) &&
    (let ty := schemaType (.mk t a o al en it pr pp ap comp exC doc tg id rf em de)
     if ty = "array" then wsOpt it
     else if ty = "anyOf" then wsOptList a
     else if ty = "oneOf" then wsOptList o
     else if ty = "allOf" then wsOptList al
     else if ty = "object" then wsOptProps pr && wsOptProps pp && wsOpt ap
     else true)

def wsOpt : Option Schema → Bool
  | none => true
  | some x => walkStripped x

def wsOptList : Option (List Schema) → Bool
  | none => true
  | some l => wsList l

def wsList : List Schema → Bool
  | [] => true
  | x :: xs => walkStripped x && wsList xs

def wsOptProps : Option (List (String × Schema)) → Bool
  | none => true
  | some l => wsProps l

def wsProps : List (String × Schema) → Bool
  | [] => true
  | kv :: xs => walkStripped kv.2 && wsProps xs

end

mutual

/-- Spec-side reading of claim C7 as stated: EVERY node of the schema tree,
through every subschema position and regardless of the classified type, has
all four authoring-only fields absent. -/
def fullyStripped : Schema → Bool
  | .mk _ a o al _ it pr pp ap comp exC doc tg _ _ _ _ =>
    comp.isNone && exC.isNone && doc.isNone && tg.isNone &&
    fsOpt it && fsOptList a && fsOptList o && fsOptList al &&
    fsOptProps pr && fsOptProps pp && fsOpt ap

def fsOpt : Option Schema → Bool
  | none => true
  | some x => fullyStripped x

def fsOptList : Option (List Schema) → Bool
  | none => true
  | some l => fsList l

def fsList : List Schema → Bool
  | [] => true
  | x :: xs => fullyStripped x && fsList xs

def fsOptProps : Option (List (String × Schema)) → Bool
  | none => true
  | some l => fsProps l

def fsProps : List (String × Schema) → Bool
  | [] => true
  | kv :: xs => fullyStripped kv.2 && fsProps xs

end

theorem normOpt_isSome (os : Option Schema) : (normOpt os).isSome = os.isSome := by
  cases os <;> simp [normOpt]

theorem normOptList_isSome (ol : Option (List Schema)) :
    (normOptList ol).isSome = ol.isSome := by
  cases ol <;> simp [normOptList]

theorem normOptProps_isSome (ol : Option (List (String × Schema))) :
    (normOptProps ol).isSome = ol.isSome := by
  cases ol <;> simp [normOptProps]

theorem strip_completions {α : Type} (comp : Option α) :
    (if comp.isSome then (none : Option α) else comp) = none := by
  cases comp <;> simp

theorem strip_exhaustive (exC : Option Bool) :
    ((if exC = some true then none else exC) == some true) = false := by
  rcases exC with _ | b
  · simp
  · cases b <;> simp

theorem strip_documentation (doc : Option String) :
    ((if jsTruthyStr doc then none else doc) == (none : Option String) ||
      (if jsTruthyStr doc then none else doc) == some "") = true := by
  rcases doc with _ | d
  · simp [jsTruthyStr]
  · by_cases hd : d = "" <;> simp [jsTruthyStr, hd]

theorem schemaType_mk (t : Option String) (a o al : Option (List Schema))
    (en : Option (List JSValue)) (it : Option Schema)
    (pr pp : Option (List (String × Schema))) (ap : Option Schema)
    (comp : Option (List String)) (exC : Option Bool) (doc : Option String)
    (tg : Option (List String)) (id rf em de : Option String) :
    schemaType (.mk t a o al en it pr pp ap comp exC doc tg id rf em de) =
      if jsTruthyStr t then t.getD ""
      else if a.isSome then "anyOf"
      else if o.isSome then "oneOf"
      else if al.isSome then "allOf"
      else if en.isSome then "enum"
      else "any" := rfl

theorem nodeStripped_strip (t : Option String) (a o al : Option (List Schema))
    (en : Option (List JSValue)) (it : Option Schema)
    (pr pp : Option (List (String × Schema))) (ap : Option Schema)
    (comp : Option (List String)) (exC : Option Bool) (doc : Option String)
    (tg : Option (List String)) (id rf em de : Option String) :
    nodeStripped (.mk t a o al en it pr pp ap
      (if comp.isSome then none else comp)
      (if exC = some true then none else exC)
      (if jsTruthyStr doc then none else doc)
      (if tg.isSome then none else tg) id rf em de) = true := by
  simp only [nodeStripped, Schema.completions, Schema.tags,
    Schema.exhaustiveCompletions, Schema.documentation, strip_completions,
    strip_exhaustive, strip_documentation, Option.isNone_none,
    Bool.not_false, Bool.and_true, Bool.true_and]

theorem normalize_walk_aux : ∀ n : Nat,
    (∀ s : Schema, sizeOf s ≤ n → walkStripped (normalizeSchema s) = true) ∧
    (∀ os : Option Schema, sizeOf os ≤ n → wsOpt (normOpt os) = true) ∧
    (∀ l : List Schema, sizeOf l ≤ n → wsList (normList l) = true) ∧
    (∀ ol : Option (List Schema), sizeOf ol ≤ n →
      wsOptList (normOptList ol) = true) ∧
    (∀ pl : List (String × Schema), sizeOf pl ≤ n →
      wsProps (normProps pl) = true) ∧
    (∀ opl : Option (List (String × Schema)), sizeOf opl ≤ n →
      wsOptProps (normOptProps opl) = true) := by
  intro n
  induction n with
  | zero =>
    refine ⟨?_, ?_, ?_, ?_, ?_, ?_⟩
    · intro s hs
      rcases s with ⟨t, a, o, al, en, it, pr, pp, ap, comp, exC, doc, tg, id, rf, em, de⟩
      simp [Schema.mk.sizeOf_spec] at hs
    · intro os h; rcases os with _ | x <;> simp at h
    · intro l h; rcases l with _ | ⟨x, xs⟩ <;> simp at h
    · intro ol h; rcases ol with _ | l <;> simp at h
    · intro pl h; rcases pl with _ | ⟨kv, xs⟩ <;> simp at h
    · intro opl h; rcases opl with _ | l <;> simp at h
  | succ n ih =>
    obtain ⟨ihS, ihO, ihL, ihOL, ihP, ihOP⟩ := ih
    refine ⟨?_, ?_, ?_, ?_, ?_, ?_⟩
    · intro s hs
      rcases s with ⟨t, a, o, al, en, it, pr, pp, ap, comp, exC, doc, tg, id, rf, em, de⟩
      simp only [Schema.mk.sizeOf_spec] at hs
      simp only [normalizeSchema]
      simp only [schemaType_mk]
      by_cases h1 : (if jsTruthyStr t = true then t.getD ""
          else if a.isSome = true then "anyOf"
          else if o.isSome = true then "oneOf"
          else if al.isSome = true then "allOf"
          else if en.isSome = true then "enum"
          else "any") = "array"
      · rw [if_pos h1]
        simp only [walkStripped, Schema.type, Schema.anyOf, Schema.oneOf,
          Schema.allOf, Schema.enum, schemaType_mk, normOpt_isSome,
          normOptList_isSome, normOptProps_isSome, nodeStripped_strip,
          Bool.true_and]
        rw [if_pos h1]
        exact ihO it (by omega)
      · rw [if_neg h1]
        by_cases h2 : (if jsTruthyStr t = true then t.getD ""
          else if a.isSome = true then "anyOf"
          else if o.isSome = true then "oneOf"
          else if al.isSome = true then "allOf"
          else if en.isSome = true then "enum"
          else "any") = "anyOf"
        · rw [if_pos h2]
          simp only [walkStripped, Schema.type, Schema.anyOf, Schema.oneOf,
          Schema.allOf, Schema.enum, schemaType_mk, normOpt_isSome,
          normOptList_isSome, normOptProps_isSome, nodeStripped_strip,
          Bool.true_and]
          rw [if_neg h1, if_pos h2]
          exact ihOL a (by omega)
        · rw [if_neg h2]
          by_cases h3 : (if jsTruthyStr t = true then t.getD ""
          else if a.isSome = true then "anyOf"
          else if o.isSome = true then "oneOf"
          else if al.isSome = true then "allOf"
          else if en.isSome = true then "enum"
          else "any") = "oneOf"
          · rw [if_pos h3]
            simp only [walkStripped, Schema.type, Schema.anyOf, Schema.oneOf,
          Schema.allOf, Schema.enum, schemaType_mk, normOpt_isSome,
          normOptList_isSome, normOptProps_isSome, nodeStripped_strip,
          Bool.true_and]
            rw [if_neg h1, if_neg h2, if_pos h3]
            exact ihOL o (by omega)
          · rw [if_neg h3]
            by_cases h4 : (if jsTruthyStr t = true then t.getD ""
          else if a.isSome = true then "anyOf"
          else if o.isSome = true then "oneOf"
          else if al.isSome = true then "allOf"
          else if en.isSome = true then "enum"
          else "any") = "allOf"
            · rw [if_pos h4]
              simp only [walkStripped, Schema.type, Schema.anyOf, Schema.oneOf,
          Schema.allOf, Schema.enum, schemaType_mk, normOpt_isSome,
          normOptList_isSome, normOptProps_isSome, nodeStripped_strip,
          Bool.true_and]
              rw [if_neg h1, if_neg h2, if_neg h3, if_pos h4]
              exact ihOL al (by omega)
            · rw [if_neg h4]
              by_cases h5 : (if jsTruthyStr t = true then t.getD ""
          else if a.isSome = true then "anyOf"
          else if o.isSome = true then "oneOf"
          else if al.isSome = true then "allOf"
          else if en.isSome = true then "enum"
          else "any") = "object"
              · rw [if_pos h5]
                simp only [walkStripped, Schema.type, Schema.anyOf, Schema.oneOf,
          Schema.allOf, Schema.enum, schemaType_mk, normOpt_isSome,
          normOptList_isSome, normOptProps_isSome, nodeStripped_strip,
          Bool.true_and]
                rw [if_neg h1, if_neg h2, if_neg h3, if_neg h4, if_pos h5]
                simp only [Bool.and_eq_true]
                exact ⟨⟨ihOP pr (by omega), ihOP pp (by omega)⟩, ihO ap (by omega)⟩
              · rw [if_neg h5]
                simp only [walkStripped, Schema.type, Schema.anyOf, Schema.oneOf,
          Schema.allOf, Schema.enum, schemaType_mk, normOpt_isSome,
          normOptList_isSome, normOptProps_isSome, nodeStripped_strip,
          Bool.true_and]
                rw [if_neg h1, if_neg h2, if_neg h3, if_neg h4, if_neg h5]
    · intro os h
      rcases os with _ | x
      · simp [normOpt, wsOpt]
      · simp only [normOpt, wsOpt]
        simp only [Option.some.sizeOf_spec] at h
        exact ihS x (by omega)
    · intro l h
      rcases l with _ | ⟨x, xs⟩
      · simp [normList, wsList]
      · simp only [normList, wsList, Bool.and_eq_true]
        simp only [List.cons.sizeOf_spec] at h
        exact ⟨ihS x (by omega), ihL xs (by omega)⟩
    · intro ol h
      rcases ol with _ | l
      · simp [normOptList, wsOptList]
      · simp only [normOptList, wsOptList]
        simp only [Option.some.sizeOf_spec] at h
        exact ihL l (by omega)
    · intro pl h
      rcases pl with _ | ⟨kv, xs⟩
      · simp [normProps, wsProps]
      · rcases kv with ⟨k, v⟩
        simp only [normProps, wsProps, Bool.and_eq_true]
        simp only [List.cons.sizeOf_spec, Prod.mk.sizeOf_spec] at h
        exact ⟨ihS v (by omega), ihP xs (by omega)⟩
    · intro opl h
      rcases opl with _ | l
      · simp [normOptProps, wsOptProps]
      · simp only [normOptProps, wsOptProps]
        simp only [Option.some.sizeOf_spec] at h
        exact ihP l (by omega)

/-- A schema whose only field is exhaustiveCompletions set to false. -/
def exFalseExhaustive : Schema :=
  .mk none none none none none none none none none none (some false) none none
    none none none none

theorem normalizeSchema_exFalseExhaustive :
    normalizeSchema exFalseExhaustive = exFalseExhaustive := by
  rw [exFalseExhaustive, normalizeSchema]
  simp [schemaType_mk, jsTruthyStr]

/-- Claim C7, counterexample. -/
theorem c7_every_node_stripped_counterexample :
    (normalizeSchema exFalseExhaustive).exhaustiveCompletions = some false ∧
    fullyStripped (normalizeSchema exFalseExhaustive) = false := by
  rw [normalizeSchema_exFalseExhaustive]
  constructor
  · rfl
  · rw [exFalseExhaustive, fullyStripped]
    simp [fsOpt, fsOptList, fsOptProps]

/-- Claim C7, amended. -/
theorem c7_normalizeSchema_strips_walked_truthy (s : Schema) :
    walkStripped (normalizeSchema s) = true :=
  (normalize_walk_aux (sizeOf s)).1 s (Nat.le_refl _)


/-! ## Localized errors (yaml-validation/errors.ts) -/

/-- Splitting at a separator character, structurally (String.split is
modelled character-wise); "a/b" splits into ["a","b"], "" into [""]. -/
def splitOnChar (sep : Char) : List Char → List (List Char)
  | [] => [[]]
  | c :: rest =>
    if c = sep then [] :: splitOnChar sep rest
    else
      match splitOnChar sep rest with
      | [] => [[c]]
      | l :: ls => (c :: l) :: ls

/-- JavaScript String.prototype.trim, character-wise. -/
def trimChars (l : List Char) : List Char :=
  ((l.dropWhile Char.isWhitespace).reverse.dropWhile Char.isWhitespace).reverse

structure TextPosition where
  line : Nat
  column : Nat

/-- A source span; the source field `end` is named `stop` (`end` is reserved
in Lean). -/
structure TextRange where
  start : TextPosition
  stop : TextPosition

/-- The violating annotated parse node, restricted to the fields the error
handlers read: its flat source span and its native scalar result. -/
structure AnnotatedParseNode where
  start : Nat
  stop : Nat
  result : JSValue

/-- The raw validation-engine failure attached to a LocalizedError:
keyword, paths, the responsible schema as reported in params, and the
parent schema. -/
structure AjvErrorInfo where
  keyword : String
  instancePath : String
  schemaPath : String
  paramsSchema : Option Schema
  parentSchema : Option Schema

structure TidyverseError where
  heading : String
  error : List String
  info : List String
  location : TextRange

structure LocalizedError where
  violatingObject : AnnotatedParseNode
  ajvError : AjvErrorInfo
  instancePath : String
  source : String
  location : TextRange
  niceError : TidyverseError

/-- Modelled from the spec: getVerbatimInput (yaml-schema.ts, not under
src/) recovers the source text of the violating node's span from the mapped
source. -/
def getVerbatimInput (error : LocalizedError) : String :=
  String.mk (sliceL error.source.toList error.violatingObject.start
    error.violatingObject.stop)

/-- isEmptyValue (errors.ts lines 48-51). -/
def isEmptyValue (error : LocalizedError) : Bool :=
  (trimChars (getVerbatimInput error).toList).length == 0

/-- Numeric instance-path fragments are digit strings; JavaScript Number()
on them is modelled by a digit parse (a non-digit fragment is NaN, and the
empty string is 0, as in JavaScript — the caller filters it out first). -/
def jsNumber (s : String) : Option Nat :=
  if s.toList.all Char.isDigit then
    some (s.toList.foldl (fun acc c => acc * 10 + (c.toNat - '0'.toNat)) 0)
  else none

/-- getLastFragment (errors.ts lines 53-67). -/
def getLastFragment (instancePath : String) : Option (Sum Nat String) :=
  let splitPath := splitOnChar '/' instancePath.toList
  if splitPath.length = 0 then none
  else
    let lastFragment := String.mk (splitPath.getLastD [])
    if lastFragment = "" then none
    else
      match jsNumber lastFragment with
      | some n => some (Sum.inl n)
      | none => some (Sum.inr lastFragment)

/-- reindent (errors.ts lines 98-103) currently returns its argument
unchanged while the indentation handling is unfinished. -/
def reindent (str : String) : String := str

/-- Modelled from the spec: colors.blue only wraps the text in terminal
color escapes, which carry no information the diagnostics claims depend on;
the model keeps the text. -/
def colorsBlue (s : String) : String := s

/-- Modelled from the spec: quotedStringColor colorizes the quoted string
the same way. -/
def quotedStringColor (s : String) : String := s

/-- JavaScript `a || b` on object-valued operands: the first defined one. -/
def jsOrSchema : Option Schema → Option Schema → Option Schema
  | some a, _ => some a
  | none, b => b

mutual

/-- Modelled from the spec: navigateSchemaByInstancePath
(schema-navigation.ts, not under src/): recursive descent driven by the
path; a combinator node descends into every branch and unions the results;
an object node follows the matching property; an exhausted path returns the
current schema; anything else yields nothing.  (The call in innerDescription
passes its two arguments in the opposite order from this signature; that
branch is unreachable whenever the validation engine reports the responsible
schema, as it does everywhere below.) -/
def navigateSchemaByInstancePath : Schema → List String → List Schema
  | .mk _ (some l) _ _ _ _ _ _ _ _ _ _ _ _ _ _ _, path => navUnion l path
  | .mk _ none (some l) _ _ _ _ _ _ _ _ _ _ _ _ _ _, path => navUnion l path
  | .mk _ none none (some l) _ _ _ _ _ _ _ _ _ _ _ _ _, path => navUnion l path
  | s, [] => [s]
  | .mk _ none none none _ _ (some props) _ _ _ _ _ _ _ _ _ _, k :: rest =>
    navProps props k rest
  | _, _ :: _ => []

def navUnion : List Schema → List String → List Schema
  | [], _ => []
  | s :: ss, path => navigateSchemaByInstancePath s path ++ navUnion ss path

def navProps : List (String × Schema) → String → List String → List Schema
  | [], _, _ => []
  | kv :: rest, k, path =>
    if kv.1 = k then navigateSchemaByInstancePath kv.2 path
    else navProps rest k path

end

/-- innerDescription (errors.ts lines 105-117): prefer the schema the
validation engine reported; otherwise navigate the schema path (with percent
decoding of fragments modelled as the identity, the claims using unescaped
paths).  A schema without a description joins as the empty string, the way
Array.prototype.join renders undefined. -/
def innerDescription (error : LocalizedError) (schema : Schema) : String :=
  let schemaPath :=
    ((splitOnChar '/' error.ajvError.schemaPath.toList).map String.mk).drop 1
  let errorSchema := jsOrSchema error.ajvError.paramsSchema
    error.ajvError.parentSchema
  let innerSchema := match errorSchema with
    | some s => [s]
    | none => navigateSchemaByInstancePath schema schemaPath
  String.intercalate ", " (innerSchema.map (fun s => s.description.getD ""))

/-- formatHeading (errors.ts lines 119-159). -/
def formatHeading (error : LocalizedError) (schema : Schema) : String :=
  let rawVerbatimInput := getVerbatimInput error
  let verbatimInput := quotedStringColor (reindent rawVerbatimInput)
  let empty := isEmptyValue error
  match getLastFragment error.instancePath with
  | none =>
    if empty then "YAML object is missing."
    else "YAML object " ++ verbatimInput ++ " must instead " ++
      innerDescription error schema
  | some (Sum.inl n) =>
    let innerDesc := innerDescription error schema
    if empty then
      "Array entry " ++ toString (n + 1) ++
        " is empty but it must instead " ++ innerDesc ++ "."
    else
      "Array entry " ++ toString (n + 1) ++ " has value " ++ verbatimInput ++
        " must instead " ++ innerDesc ++ "."
  | some (Sum.inr key) =>
    let formatLastFragment := colorsBlue key
    let innerDesc := innerDescription error schema
    if empty then
      "Key " ++ formatLastFragment ++ " has empty value but it must instead " ++
        innerDesc
    else
      "Key " ++ formatLastFragment ++ " has value " ++ verbatimInput ++
        " but it must instead " ++ innerDesc

/-- Modelled from the spec: addInstancePathInfo (core/lib/errors.ts, not
under src/) appends a pointer to the instance path when it is nonempty. -/
def addInstancePathInfo (info : List String) (instancePath : String) : List String :=
  if instancePath = "" then info
  else info ++ ["The error happened in location " ++ instancePath ++ "."]

/-- Modelled from the spec: addFileInfo (core/lib/errors.ts, not under src/)
names the origin file; the model's mapped source carries no file name, so
nothing is added. -/
def addFileInfo (info : List String) (_source : String) : List String := info

/-- The YAML boolean-like literal set "y|Y|yes|Yes|YES|true|True|TRUE|on|On|ON"
split at the bars, exactly as the source builds it (errors.ts line 272). -/
def yesses : List String :=
  (splitOnChar '|' "y|Y|yes|Yes|YES|true|True|TRUE|on|On|ON".toList).map String.mk

/-- The YAML boolean-like literal set "n|N|no|No|NO|false|False|FALSE|off|Off|OFF"
split at the bars (errors.ts line 273). -/
def nos : List String :=
  (splitOnChar '|' "n|N|no|No|NO|false|False|FALSE|off|Off|OFF".toList).map String.mk

/-- checkForBadBoolean (errors.ts lines 255-300).  The source's schema
parameter is immediately shadowed by `error.ajvError.params.schema`, and the
AnnotatedParse parameter is never read, so both are dropped from the model. -/
def checkForBadBoolean (error : LocalizedError) : LocalizedError :=
  let schema := error.ajvError.paramsSchema
  let isStr := match error.violatingObject.result with
    | JSValue.strv _ => true
    | _ => false
  let cond := isStr && (error.ajvError.keyword == "type") &&
    (match schema with
     | some s => s.type == some "boolean"
     | none => false)
  if !cond then error
  else
    let strValue := match error.violatingObject.result with
      | JSValue.strv v => v
      | _ => ""
    let verbatimInput := quotedStringColor (getVerbatimInput error)
    match (if yesses.contains strValue then some true
           else if nos.contains strValue then some false else none) with
    | none => error
    | some fix =>
      let errorMessage := "The value " ++ verbatimInput ++ " is a string."
      let suggestion1 := "Quarto uses YAML 1.2, which interprets booleans strictly."
      let suggestion2 := "Try using " ++
        quotedStringColor (if fix then "true" else "false") ++ " instead."
      let newError : TidyverseError := {
        heading := formatHeading error (schema.getD emptySchema)
        error := [errorMessage]
        info := addFileInfo (addInstancePathInfo []
          error.ajvError.instancePath) error.source ++ [suggestion1, suggestion2]
        location := error.niceError.location }
      { error with niceError := newError }


/-- Claim C8, confirmed: on a type-keyword error whose violating value is a
string and whose responsible schema (params.schema) requires a boolean, a
YAML-boolean-like literal gets the strict-parsing explanation and the
matching literal suggestion (true for the yes-family, false for the
no-family); every other error is returned unchanged. -/
theorem c8_checkForBadBoolean :
    (∀ (e : LocalizedError) (sch : Schema) (v : String),
      e.violatingObject.result = JSValue.strv v →
      e.ajvError.keyword = "type" →
      e.ajvError.paramsSchema = some sch →
      sch.type = some "boolean" →
      v ∈ yesses →
        (checkForBadBoolean e).niceError.error =
          ["The value " ++ quotedStringColor (getVerbatimInput e) ++
            " is a string."] ∧
        "Quarto uses YAML 1.2, which interprets booleans strictly." ∈
          (checkForBadBoolean e).niceError.info ∧
        ("Try using " ++ quotedStringColor "true" ++ " instead.") ∈
          (checkForBadBoolean e).niceError.info) ∧
    (∀ (e : LocalizedError) (sch : Schema) (v : String),
      e.violatingObject.result = JSValue.strv v →
      e.ajvError.keyword = "type" →
      e.ajvError.paramsSchema = some sch →
      sch.type = some "boolean" →
      v ∈ nos →
        (checkForBadBoolean e).niceError.error =
          ["The value " ++ quotedStringColor (getVerbatimInput e) ++
            " is a string."] ∧
        "Quarto uses YAML 1.2, which interprets booleans strictly." ∈
          (checkForBadBoolean e).niceError.info ∧
        ("Try using " ++ quotedStringColor "false" ++ " instead.") ∈
          (checkForBadBoolean e).niceError.info) ∧
    (∀ e : LocalizedError,
      checkForBadBoolean e = e ∨
      ∃ (sch : Schema) (v : String),
        e.violatingObject.result = JSValue.strv v ∧
        e.ajvError.keyword = "type" ∧
        e.ajvError.paramsSchema = some sch ∧
        sch.type = some "boolean" ∧ (v ∈ yesses ∨ v ∈ nos)) := by
  have hdisj : ∀ v : String, v ∈ nos → v ∉ yesses := by decide
  refine ⟨?_, ?_, ?_⟩
  · intro e sch v hres hkw hps hbool hmem
    have hc : yesses.contains v = true := List.elem_eq_true_of_mem hmem
    simp only [checkForBadBoolean, hres, hkw, hps, hbool, hc, beq_self_eq_true,
      Bool.and_self, Bool.and_true, Bool.true_and, Bool.not_true,
      Bool.false_eq_true, if_false, if_true, ite_true, ite_false]
    simp [addInstancePathInfo]
  · intro e sch v hres hkw hps hbool hmem
    have hcn : nos.contains v = true := List.elem_eq_true_of_mem hmem
    have hcy : yesses.contains v = false := by
      rw [Bool.eq_false_iff]
      intro hc
      exact hdisj v hmem (List.mem_of_elem_eq_true hc)
    simp only [checkForBadBoolean, hres, hkw, hps, hbool, hcn, hcy,
      beq_self_eq_true, Bool.and_self, Bool.and_true, Bool.true_and,
      Bool.not_true, Bool.false_eq_true, if_false, if_true, ite_true, ite_false]
    simp [addInstancePathInfo]
  · intro e
    rcases hres : e.violatingObject.result with _ | b | n | v
    · left; simp [checkForBadBoolean, hres]
    · left; simp [checkForBadBoolean, hres]
    · left; simp [checkForBadBoolean, hres]
    · by_cases hkw : e.ajvError.keyword = "type"
      · rcases hps : e.ajvError.paramsSchema with _ | sch
        · left; simp [checkForBadBoolean, hres, hkw, hps]
        · by_cases hbool : sch.type = some "boolean"
          · by_cases hy : v ∈ yesses
            · exact Or.inr ⟨sch, v, rfl, hkw, rfl, hbool, Or.inl hy⟩
            · by_cases hn : v ∈ nos
              · exact Or.inr ⟨sch, v, rfl, hkw, rfl, hbool, Or.inr hn⟩
              · left
                have hcy : yesses.contains v = false := by
                  rw [Bool.eq_false_iff]
                  intro hc
                  exact hy (List.mem_of_elem_eq_true hc)
                have hcn : nos.contains v = false := by
                  rw [Bool.eq_false_iff]
                  intro hc
                  exact hn (List.mem_of_elem_eq_true hc)
                simp [checkForBadBoolean, hres, hkw, hps, hbool, hcy, hcn, hy, hn]
          · left
            have hb : (sch.type == some "boolean") = false := by
              rw [beq_eq_false_iff_ne]
              exact hbool
            simp [checkForBadBoolean, hres, hkw, hps, hb]
      · left
        have hk : (e.ajvError.keyword == "type") = false := by
          rw [beq_eq_false_iff_ne]
          exact hkw
        simp [checkForBadBoolean, hres, hk]

def boolReqSchema : Schema :=
  .mk (some "boolean") none none none none none none none none none none
    none none none none none (some "be a boolean value")

def locYes : TextRange :=
  { start := { line := 0, column := 6 }, stop := { line := 0, column := 9 } }

def errYes : LocalizedError where
  violatingObject := { start := 6, stop := 9, result := JSValue.strv "yes" }
  ajvError :=
    { keyword := "type"
      instancePath := "/eval"
      schemaPath := "#/properties/eval/type"
      paramsSchema := some boolReqSchema
      parentSchema := none }
  instancePath := "/eval"
  source := "eval: yes"
  location := locYes
  niceError := { heading := "", error := [], info := [], location := locYes }

theorem c8_checkForBadBoolean_witness :
    errYes.violatingObject.result = JSValue.strv "yes" ∧
    errYes.ajvError.keyword = "type" ∧
    errYes.ajvError.paramsSchema = some boolReqSchema ∧
    boolReqSchema.type = some "boolean" ∧
    "yes" ∈ yesses ∧
    ((checkForBadBoolean errYes).niceError.error =
      ["The value " ++ quotedStringColor (getVerbatimInput errYes) ++
        " is a string."] ∧
      "Quarto uses YAML 1.2, which interprets booleans strictly." ∈
        (checkForBadBoolean errYes).niceError.info ∧
      ("Try using " ++ quotedStringColor "true" ++ " instead.") ∈
        (checkForBadBoolean errYes).niceError.info) :=
  ⟨rfl, rfl, rfl, rfl, by decide,
    c8_checkForBadBoolean.1 errYes boolReqSchema "yes" rfl rfl rfl rfl
      (by decide)⟩


/-! ## checkForSimilarKey (errors.ts lines 360-420) -/

/-- One dynamic-programming row step for the edit distance: given the
previous row (tail) and the cell to the left, produce the rest of the new
row along the second word. -/
def levRowAux (c : Char) : List Char → List Nat → Nat → List Nat
  | b :: bs, p0 :: p1 :: ps, left =>
    let cell := min (min (left + 1) (p1 + 1)) (p0 + (if c = b then 0 else 1))
    cell :: levRowAux c bs (p1 :: ps) cell
  | _, _, _ => []

/-- Modelled from the spec: editDistance (core/lib/text.ts, not under src/),
read as the standard Levenshtein edit distance the spec names, computed row
by row. -/
def editDistance (w1 w2 : String) : Nat :=
  let bs := w2.toList
  let first := List.range (bs.length + 1)
  let last := w1.toList.foldl
    (fun prev c =>
      let head := prev.headD 0 + 1
      head :: levRowAux c bs prev head)
    first
  last.getLastD 0

mutual

/-- Modelled from the spec: possibleSchemaKeys (schema-utils.ts, not under
src/) — the keys the schema accepts: declared property names, collected
recursively through combinator branches. -/
def possibleSchemaKeys : Schema → List String
  | .mk _ a o al _ _ pr _ _ _ _ _ _ _ _ _ _ =>
    (match pr with
     | some props => props.map (fun kv => kv.1)
     | none => []) ++
    pskOptList a ++ pskOptList o ++ pskOptList al

def pskOptList : Option (List Schema) → List String
  | none => []
  | some l => pskList l

def pskList : List Schema → List String
  | [] => []
  | s :: ss => possibleSchemaKeys s ++ pskList ss

end

/-- Modelled from the spec: resolveSchema (schema-utils.ts, not under src/)
applied to the schema `{$ref: id}` the handler builds: with an undefined
$id the ref-less schema resolves to itself (here the empty schema); a
defined $id resolves to the registered schema and fails —
SchemaReferenceMissing, a thrown error, modelled by none — when the id is
unregistered. -/
def resolveRefSchema (reg : SchemaRegistry) (id : Option String) : Option Schema :=
  match id with
  | none => some emptySchema
  | some i => reg i

/-- JavaScript String(...) applied to getLastFragment's result:
String(undefined) is "undefined". -/
def jsStringOfFragment : Option (Sum Nat String) → String
  | none => "undefined"
  | some (Sum.inl n) => toString n
  | some (Sum.inr s) => s

/-- checkForSimilarKey (errors.ts lines 360-420), with the schema registry
passed explicitly and a resolution failure (thrown SchemaReferenceMissing)
modelled by none.  The floating cutoff `bestDistance * 0.3 >
lastFragment.length` is modelled exactly, with 0.3 as the rational 3/10:
bestDistance * 3 > length * 10.  (The comment above it in the source states
the opposite rule: "if best edit distance is more than 30% of the word,
don't suggest".) -/
def checkForSimilarKey (reg : SchemaRegistry) (error : LocalizedError) :
    Option LocalizedError :=
  let lastFragment := jsStringOfFragment (getLastFragment error.instancePath)
  match jsOrSchema error.ajvError.paramsSchema error.ajvError.parentSchema with
  | none => some error
  | some errorSchema =>
    match resolveRefSchema reg errorSchema.id with
    | none => none
    | some unnormalized =>
      let keys := possibleSchemaKeys unnormalized
      if keys.isEmpty then some error
      else
        let best := keys.foldl
          (fun acc key =>
            let d := editDistance key lastFragment
            match acc with
            | none => some ([key], d)
            | some (bestKey, bestDistance) =>
              if d < bestDistance then some ([key], d)
              else if d = bestDistance then some (bestKey ++ [key], bestDistance)
              else some (bestKey, bestDistance))
          none
        match best with
        | none => some error
        | some (bestKey, bestDistance) =>
          if bestDistance * 3 > lastFragment.length * 10 then some error
          else
            let suggestions := bestKey.map colorsBlue
            let line :=
              if suggestions.length = 1 then
                "Did you mean " ++ suggestions.headD "" ++ "?"
              else if suggestions.length = 2 then
                "Did you mean " ++ suggestions.headD "" ++ " or " ++
                  suggestions.getD 1 "" ++ "?"
              else
                "Did you mean " ++
                  String.intercalate ", "
                    (suggestions.dropLast ++ ["or " ++ suggestions.getLastD ""]) ++
                  "?"
            some { error with niceError :=
              { error.niceError with info := error.niceError.info ++ [line] } }



def schemaAbc : Schema :=
  .mk (some "object") none none none none none (some [("abc", emptySchema)])
    none none none none none none (some "S1") none none none

def schemaTitles : Schema :=
  .mk (some "object") none none none none none
    (some [("title", emptySchema), ("subtitle", emptySchema)])
    none none none none none none (some "S2") none none none

def refS1 : Schema :=
  .mk none none none none none none none none none none none none none
    (some "S1") none none none

def refS2 : Schema :=
  .mk none none none none none none none none none none none none none
    (some "S2") none none none

def regSim : SchemaRegistry :=
  fun k =>
    if k = "S1" then some schemaAbc
    else if k = "S2" then some schemaTitles
    else none

def locZero : TextRange :=
  { start := { line := 0, column := 0 }, stop := { line := 0, column := 0 } }

def errXyz : LocalizedError where
  violatingObject := { start := 0, stop := 3, result := JSValue.strv "xyz" }
  ajvError :=
    { keyword := "_custom_invalidProperty"
      instancePath := "/xyz"
      schemaPath := "#"
      paramsSchema := some refS1
      parentSchema := none }
  instancePath := "/xyz"
  source := "xyz: 1"
  location := locZero
  niceError := { heading := "h", error := [], info := [], location := locZero }

def errSubtitel : LocalizedError where
  violatingObject := { start := 0, stop := 8, result := JSValue.strv "subtitel" }
  ajvError :=
    { keyword := "_custom_invalidProperty"
      instancePath := "/subtitel"
      schemaPath := "#"
      paramsSchema := some refS2
      parentSchema := none }
  instancePath := "/subtitel"
  source := "subtitel: x"
  location := locZero
  niceError := { heading := "h", error := [], info := [], location := locZero }

theorem possibleSchemaKeys_schemaAbc : possibleSchemaKeys schemaAbc = ["abc"] := by
  simp [schemaAbc, possibleSchemaKeys, pskOptList]

theorem possibleSchemaKeys_schemaTitles :
    possibleSchemaKeys schemaTitles = ["title", "subtitle"] := by
  simp [schemaTitles, possibleSchemaKeys, pskOptList]

theorem c1_eval_xyz :
    (checkForSimilarKey regSim errXyz).map (fun e => e.niceError.info) =
      some ["Did you mean abc?"] := by
  have hd1 : editDistance "abc" "xyz" = 3 := by decide
  have hlf1 : jsStringOfFragment (getLastFragment "/xyz") = "xyz" := by decide
  unfold checkForSimilarKey
  rw [show jsOrSchema errXyz.ajvError.paramsSchema errXyz.ajvError.parentSchema
      = some refS1 from rfl]
  rw [show errXyz.instancePath = "/xyz" from rfl, hlf1]
  dsimp only
  rw [show resolveRefSchema regSim refS1.id = some schemaAbc from rfl]
  dsimp only
  rw [possibleSchemaKeys_schemaAbc]
  dsimp only [List.foldl]
  rw [hd1]
  decide


theorem c1_eval_subtitel :
    (checkForSimilarKey regSim errSubtitel).map (fun e => e.niceError.info) =
      some ["Did you mean subtitle?"] := by
  have hd1 : editDistance "title" "subtitel" = 5 := by decide
  have hd2 : editDistance "subtitle" "subtitel" = 2 := by decide
  have hlf : jsStringOfFragment (getLastFragment "/subtitel") = "subtitel" := by
    decide
  unfold checkForSimilarKey
  rw [show jsOrSchema errSubtitel.ajvError.paramsSchema
      errSubtitel.ajvError.parentSchema = some refS2 from rfl]
  rw [show errSubtitel.instancePath = "/subtitel" from rfl, hlf]
  dsimp only
  rw [show resolveRefSchema regSim refS2.id = some schemaTitles from rfl]
  dsimp only
  rw [possibleSchemaKeys_schemaTitles]
  dsimp only [List.foldl]
  rw [hd1, hd2]
  decide

/-- Claim C1: evaluation of the code at the failing input, together with the
spec's own example.  The minimal-distance set is computed as claimed (with
the spec-modelled Levenshtein distance the keys {title, subtitle} against
offending key "subtitel" give distances 5 and 2, so the suggestion set is
exactly {subtitle}), but the 30%-cutoff direction is inverted in the code:
against the single accepted key "abc", the offending key "xyz" has minimal
distance 3, which exceeds 30% of the key's length (10 * 3 > 3 * 3), so the
claim requires no suggestion — yet the handler still pushes
"Did you mean abc?", because the source compares bestDistance * 0.3 >
length instead of bestDistance > 0.3 * length, contradicting its own
comment. -/
theorem c1_checkForSimilarKey_cutoff_eval :
    (editDistance "abc" "xyz" = 3 ∧
      10 * editDistance "abc" "xyz" > 3 * String.length "xyz" ∧
      (checkForSimilarKey regSim errXyz).map (fun e => e.niceError.info) =
        some ["Did you mean abc?"]) ∧
    (editDistance "subtitle" "subtitel" = 2 ∧
      editDistance "title" "subtitel" = 5 ∧
      (checkForSimilarKey regSim errSubtitel).map (fun e => e.niceError.info) =
        some ["Did you mean subtitle?"]) :=
  ⟨⟨by decide, by decide, c1_eval_xyz⟩,
    ⟨by decide, by decide, c1_eval_subtitel⟩⟩


/-! ## getYamlIndentTree (yaml-intelligence/parsing.ts lines 131-173) -/

/-- getIndent (parsing.ts lines 131-133): length minus the length after
trimStart. -/
def getIndent (l : List Char) : Nat :=
  l.length - (l.dropWhile Char.isWhitespace).length

/-- While loop of the smaller-indent branch (parsing.ts lines 158-161):
`while (v >= 0 && indents[v] >= lineIndent) v = predecessor[v]`.  A
JavaScript out-of-bounds read yields undefined and `undefined >= lineIndent`
is false, so the bounds check is part of the loop condition.  The loop
carries fuel; exhaustion (none) is proved unreachable below. -/
def descendLoop (pred : List Int) (indents : List Nat) (lineIndent : Nat) :
    Nat → Int → Option Int
  | 0, _ => none
  | fuel + 1, v =>
    if 0 ≤ v ∧ v.toNat < indents.length ∧ lineIndent ≤ indents.getD v.toNat 0
    then descendLoop pred indents lineIndent fuel (pred.getD v.toNat 0)
    else some v

/-- Loop state of getYamlIndentTree: the arrays built so far, the current
indentation, and the previous predecessor index. -/
structure IndentState where
  pred : List Int
  indents : List Nat
  indentation : Int
  prevPred : Int

/-- One iteration of the for-loop of getYamlIndentTree (parsing.ts lines
142-168): push the line's indent, then the four-way branch — deeper indent,
blank line, equal indent, smaller indent — with the defensive throw of the
final else modelled as none. -/
def indentStep (st : IndentState) (line : List Char) : Option IndentState :=
  let lineIndent := getIndent line
  let indents2 := st.indents ++ [lineIndent]
  if (lineIndent : Int) > st.indentation then
    some ⟨st.pred ++ [st.prevPred], indents2, lineIndent, st.pred.length⟩
  else if (trimChars line).length = 0 then
    some ⟨st.pred ++ [st.pred.getD st.prevPred.toNat 0], indents2,
      st.indentation, st.prevPred⟩
  else if (lineIndent : Int) = st.indentation then
    some ⟨st.pred ++ [st.pred.getD st.prevPred.toNat 0], indents2,
      st.indentation, st.pred.length⟩
  else if (lineIndent : Int) < st.indentation then
    match descendLoop st.pred indents2 lineIndent (st.pred.length + 1)
      st.prevPred with
    | none => none
    | some v => some ⟨st.pred ++ [v], indents2, lineIndent, st.pred.length⟩
  else
    none

def indentTreeGo : List (List Char) → IndentState → Option IndentState
  | [], st => some st
  | l :: ls, st =>
    match indentStep st l with
    | none => none
    | some st2 => indentTreeGo ls st2

/-- getYamlIndentTree (parsing.ts lines 135-173), returning the predecessor
and indentation arrays; none stands for the defensive throw (or for the
modelling fuel of the descend loop running out), both proved unreachable. -/
def getYamlIndentTree (code : List Char) : Option (List Int × List Nat) :=
  match indentTreeGo (splitOnChar '\n' code) ⟨[], [], -1, -1⟩ with
  | none => none
  | some st => some (st.pred, st.indents)

/-- Loop invariant: the arrays stay in lockstep, every predecessor entry is
at least -1 and smaller than its own index, the previous predecessor is a
valid index (or -1 before the first line, while the indentation is still
-1). -/
def IndentInv (st : IndentState) : Prop :=
  st.pred.length = st.indents.length ∧
  (∀ j : Nat, j < st.pred.length →
    st.pred.getD j 0 < (j : Int) ∧ -1 ≤ st.pred.getD j 0) ∧
  -1 ≤ st.prevPred ∧
  st.prevPred < (st.pred.length : Int) ∧
  (st.pred.length = 0 → st.indentation = -1) ∧
  (1 ≤ st.pred.length → 0 ≤ st.prevPred)

theorem predInv_append (pred : List Int) (x : Int)
    (h : ∀ j : Nat, j < pred.length →
      pred.getD j 0 < (j : Int) ∧ -1 ≤ pred.getD j 0)
    (hx1 : x < (pred.length : Int)) (hx2 : -1 ≤ x) :
    ∀ j : Nat, j < (pred ++ [x]).length →
      (pred ++ [x]).getD j 0 < (j : Int) ∧ -1 ≤ (pred ++ [x]).getD j 0 := by
  intro j hj
  simp only [List.length_append, List.length_singleton] at hj
  by_cases hlt : j < pred.length
  · rw [List.getD_append _ _ _ _ hlt]
    exact h j hlt
  · have hj2 : j = pred.length := by omega
    subst hj2
    rw [List.getD_append_right _ _ _ _ (le_refl _)]
    simpa using ⟨hx1, hx2⟩

theorem descendLoop_ok (pred : List Int) (indents : List Nat) (lineIndent : Nat)
    (hinv : ∀ j : Nat, j < pred.length →
      pred.getD j 0 < (j : Int) ∧ -1 ≤ pred.getD j 0) :
    ∀ fuel : Nat, ∀ v : Int, -1 ≤ v → v < (pred.length : Int) →
      v.toNat + 2 ≤ fuel →
      ∃ v2, descendLoop pred indents lineIndent fuel v = some v2 ∧
        -1 ≤ v2 ∧ v2 ≤ v := by
  intro fuel
  induction fuel with
  | zero => intro v h1 h2 h3; omega
  | succ fuel ih =>
    intro v h1 h2 h3
    rw [descendLoop]
    by_cases hc : 0 ≤ v ∧ v.toNat < indents.length ∧
        lineIndent ≤ indents.getD v.toNat 0
    · rw [if_pos hc]
      have hv : v.toNat < pred.length := by omega
      obtain ⟨hlt, hge⟩ := hinv v.toNat hv
      by_cases h0 : 0 ≤ pred.getD v.toNat 0
      · obtain ⟨v2, heq, hge2, hle2⟩ :=
          ih (pred.getD v.toNat 0) hge (by omega) (by omega)
        exact ⟨v2, heq, hge2, by omega⟩
      · have hm1 : pred.getD v.toNat 0 = -1 := by omega
        rw [hm1]
        rcases fuel with _ | fuel2
        · omega
        · rw [descendLoop, if_neg (by intro hcon; omega)]
          exact ⟨-1, rfl, by omega, by omega⟩
    · rw [if_neg hc]
      exact ⟨v, rfl, h1, le_refl v⟩

theorem indentStep_ok (st : IndentState) (line : List Char)
    (hinv : IndentInv st) :
    ∃ st2, indentStep st line = some st2 ∧ IndentInv st2 ∧
      st2.pred.length = st.pred.length + 1 ∧
      st2.indents.length = st.indents.length + 1 := by
  obtain ⟨hlen, hpred, hpp1, hpp2, hind, hpos⟩ := hinv
  unfold indentStep
  by_cases hb1 : ((getIndent line : Int) > st.indentation)
  · rw [if_pos hb1]
    refine ⟨_, rfl, ⟨?_, ?_, ?_, ?_, ?_, ?_⟩, by simp, by simp⟩
    · simp [hlen]
    · exact predInv_append st.pred st.prevPred hpred hpp2 hpp1
    · show -1 ≤ (st.pred.length : Int)
      omega
    · show (st.pred.length : Int) < ((st.pred ++ [st.prevPred]).length : Nat)
      simp only [List.length_append, List.length_singleton]
      omega
    · intro h
      simp at h
    · intro _
      show 0 ≤ (st.pred.length : Int)
      omega
  · rw [if_neg hb1]
    have hlenpos : 1 ≤ st.pred.length := by
      by_contra hc
      have h0 : st.pred.length = 0 := by omega
      have := hind h0
      omega
    have hpp0 : 0 ≤ st.prevPred := hpos hlenpos
    have hppn : st.prevPred.toNat < st.pred.length := by omega
    obtain ⟨hval1, hval2⟩ := hpred st.prevPred.toNat hppn
    by_cases hb2 : (trimChars line).length = 0
    · rw [if_pos hb2]
      refine ⟨_, rfl, ⟨?_, ?_, ?_, ?_, ?_, ?_⟩, by simp, by simp⟩
      · simp [hlen]
      · exact predInv_append st.pred _ hpred (by omega) hval2
      · exact hpp1
      · show st.prevPred < ((st.pred ++ [_]).length : Nat)
        simp only [List.length_append, List.length_singleton]
        omega
      · intro h
        simp at h
      · intro _
        exact hpp0
    · rw [if_neg hb2]
      by_cases hb3 : ((getIndent line : Int) = st.indentation)
      · rw [if_pos hb3]
        refine ⟨_, rfl, ⟨?_, ?_, ?_, ?_, ?_, ?_⟩, by simp, by simp⟩
        · simp [hlen]
        · exact predInv_append st.pred _ hpred (by omega) hval2
        · show -1 ≤ (st.pred.length : Int)
          omega
        · show (st.pred.length : Int) < ((st.pred ++ [_]).length : Nat)
          simp only [List.length_append, List.length_singleton]
          omega
        · intro h
          simp at h
        · intro _
          show 0 ≤ (st.pred.length : Int)
          omega
      · rw [if_neg hb3]
        by_cases hb4 : ((getIndent line : Int) < st.indentation)
        · rw [if_pos hb4]
          obtain ⟨v2, heq, hv1, hv2⟩ :=
            descendLoop_ok st.pred (st.indents ++ [getIndent line])
              (getIndent line) hpred (st.pred.length + 1) st.prevPred hpp1 hpp2
              (by omega)
          rw [heq]
          refine ⟨_, rfl, ⟨?_, ?_, ?_, ?_, ?_, ?_⟩, by simp, by simp⟩
          · simp [hlen]
          · exact predInv_append st.pred v2 hpred (by omega) hv1
          · show -1 ≤ (st.pred.length : Int)
            omega
          · show (st.pred.length : Int) < ((st.pred ++ [v2]).length : Nat)
            simp only [List.length_append, List.length_singleton]
            omega
          · intro h
            simp at h
          · intro _
            show 0 ≤ (st.pred.length : Int)
            omega
        · exfalso
          omega

theorem indentTreeGo_ok : ∀ (ls : List (List Char)) (st : IndentState),
    IndentInv st →
    ∃ st2, indentTreeGo ls st = some st2 ∧
      st2.pred.length = st.pred.length + ls.length ∧
      st2.indents.length = st.indents.length + ls.length := by
  intro ls
  induction ls with
  | nil => intro st _; exact ⟨st, rfl, by simp, by simp⟩
  | cons l ls ih =>
    intro st h
    obtain ⟨st2, heq, hinv2, hl1, hl2⟩ := indentStep_ok st l h
    obtain ⟨st3, heq3, h31, h32⟩ := ih st2 hinv2
    refine ⟨st3, ?_, by simp [hl1] at h31 ⊢; omega, by simp [hl2] at h32 ⊢; omega⟩
    rw [indentTreeGo, heq]
    exact heq3

/-- Claim C10, confirmed: getYamlIndentTree returns normally on every input —
the defensive "should never have arrived here" throw is unreachable because
the four per-line cases are exhaustive by integer trichotomy, and the
predecessor-descending loop terminates because every predecessor entry is
smaller than its own index — and the predecessor and indentation arrays have
exactly one entry per line of the input. -/
theorem c10_getYamlIndentTree_total_and_lengths (code : List Char) :
    ∃ p ind, getYamlIndentTree code = some (p, ind) ∧
      p.length = (splitOnChar '\n' code).length ∧
      ind.length = (splitOnChar '\n' code).length := by
  obtain ⟨st2, heq, h1, h2⟩ :=
    indentTreeGo_ok (splitOnChar '\n' code) ⟨[], [], -1, -1⟩
      ⟨rfl, by intro j hj; simp at hj, by simp, by simp, fun _ => rfl,
        by intro h; simp at h⟩
  refine ⟨st2.pred, st2.indents, ?_, by simpa using h1, by simpa using h2⟩
  rw [getYamlIndentTree, heq]

end Quarto
